import Mathlib

/-!
Shallow embedding of `metaswitch/common/alarms_parser.py` (Project Clearwater
python-common): the alarm-definition data model, the Alarm/Level validators,
the definitions loader, and the constants/CSV renderers, together with proofs
of the specification's claims about them.

Modelling conventions:
* Python's dynamically-typed JSON values for the unchecked `index` field are
  modelled by `JVal` (integers and strings, the cases the code can meet and
  the claims mention); `pyStr`/`pyRepr` model Python's `str()`/`repr()` on
  such a value (string `repr` is modelled without escape sequences, which
  suffices since no claim inspects quoting of exotic strings).
* Python `assert` failures and `KeyError`s become an `Except AlarmError` result;
  each `AlarmError` constructor carries the data the source message interpolates.
* `Alarm._levels` is a Python dict keyed by ITU severity code; it is modelled
  as an insertion-ordered association list with in-place replacement
  (`dict_insert`), a deterministic refinement of the unordered dict.
* The CSV writer is modelled at `writerow` granularity: the output is the list
  of rows, each a list of cell strings (the `csv` module's quoting is an
  external library concern; every cell the code passes is emitted in order).
-/

/-- A JSON scalar as stored in the untyped `index` field: the code never
checks its type, so both integers and strings can flow through. -/
inductive JVal where
  | int (n : Int)
  | str (s : String)
deriving DecidableEq, Repr

/-- Python `str()` on a `JVal` (decimal for ints, identity for strings). -/
def pyStr : JVal → String
  | .int n => toString n
  | .str s => s

/-- Python `str.lower()` (over the character sequence; the inputs here are
ASCII identifiers). -/
def pyLower (s : String) : String := ⟨s.data.map Char.toLower⟩

/-- Python `str.upper()`. -/
def pyUpper (s : String) : String := ⟨s.data.map Char.toUpper⟩

/-- Python `repr()` on a `JVal`, as used when an index is formatted inside a
tuple: decimal for ints, quoted for strings (39 is the ASCII quote character;
escape sequences are not modelled). -/
def pyRepr : JVal → String
  | .int n => toString n
  | .str s => String.singleton (Char.ofNat 39) ++ s ++ String.singleton (Char.ofNat 39)

/-- Modelled from the spec: the `alarm_severities` module is not under `src/`;
the spec describes it as a fixed, externally defined six-value ITU severity
scale (RFC 3877 ItuAlarmPerceivedSeverity). `CLEARED` below. -/
def alarm_severities_CLEARED : Nat := 1

/-- Modelled from the spec: ITU code for `indeterminate` (see `alarm_severities_CLEARED`). -/
def alarm_severities_INDETERMINATE : Nat := 2

/-- Modelled from the spec: ITU code for `critical` (see `alarm_severities_CLEARED`). -/
def alarm_severities_CRITICAL : Nat := 3

/-- Modelled from the spec: ITU code for `major` (see `alarm_severities_CLEARED`). -/
def alarm_severities_MAJOR : Nat := 4

/-- Modelled from the spec: ITU code for `minor` (see `alarm_severities_CLEARED`). -/
def alarm_severities_MINOR : Nat := 5

/-- Modelled from the spec: ITU code for `warning` (see `alarm_severities_CLEARED`). -/
def alarm_severities_WARNING : Nat := 6

/-- `itu_severities`: severity name → ITU severity code. -/
def itu_severities : List (String × Nat) :=
  [("cleared", alarm_severities_CLEARED),
   ("indeterminate", alarm_severities_INDETERMINATE),
   ("critical", alarm_severities_CRITICAL),
   ("major", alarm_severities_MAJOR),
   ("minor", alarm_severities_MINOR),
   ("warning", alarm_severities_WARNING)]

/-- `alarm_model_state`: severity name → RFC 3877 alarm-model-state ordinal,
used only for OID suffix construction. -/
def alarm_model_state : List (String × Nat) :=
  [("cleared", 1),
   ("indeterminate", 2),
   ("critical", 6),
   ("major", 5),
   ("minor", 4),
   ("warning", 3)]

/-- `full_alarm_oid`: prepend the Clearwater alarm-model OID prefix. -/
def full_alarm_oid (oid_fragment : String) : String :=
  "1.3.6.1.2.1.118.1.1.2.1.3.0." ++ oid_fragment

/-- `valid_causes`. -/
def valid_causes : List String :=
  ["software_error", "database_inconsistency", "underlying_resource_unavailable"]

/-- One level record of the input JSON. `extended_details` and
`extended_description` are the two optional keys; the rest are mandatory
(missing mandatory keys abort the load before validation logic runs, so the
record type carries them directly). -/
structure LevelRecord where
  details : String
  description : String
  cause : String
  effect : String
  action : String
  severity : String
  extended_details : Option String := none
  extended_description : Option String := none
deriving DecidableEq, Repr

/-- One alarm record of the input JSON. -/
structure AlarmRecord where
  name : String
  index : JVal
  cause : String
  levels : List LevelRecord
deriving DecidableEq, Repr

/-- A definitions document: presence of the top-level `alarms` key is
modelled by the `Option`. -/
structure AlarmsDoc where
  alarms : Option (List AlarmRecord)
deriving DecidableEq, Repr

/-- A validated level entity (`AlarmLevel.__init__`'s fields). -/
structure AlarmLevel where
  details : String
  description : String
  cause : String
  effect : String
  action : String
  itu_severity : Nat
  oid : String
  severity_string : String
deriving DecidableEq, Repr

/-- A validated alarm entity. `levels` models the `_levels` dict keyed by
ITU severity code. -/
structure Alarm where
  name : String
  index : JVal
  cause : String
  levels : List (Nat × AlarmLevel)
deriving DecidableEq, Repr

/-- The validation failures the parser can raise (each Python `assert`
message / `KeyError`, carrying the interpolated data). -/
inductive AlarmError where
  | fieldTooLong (field name : String)
  | invalidSeverity (sev name : String)
  | invalidCause (cause name : String)
  | missingClearedSeverity (name : String)
  | missingNonClearedSeverity (name : String)
  | missingAlarmsKey
deriving DecidableEq, Repr

/-- The `try: assert len(level[k]) < 4096 ... self._x = level[k] except KeyError: pass`
pattern of `AlarmLevel.__init__` for the two optional override fields: when the
override is absent keep the base value; when present it must be under 4096
characters and then replaces the base value. -/
def checkOverride (n field base : String) : Option String → Except AlarmError String
  | none => .ok base
  | some e => if e.length < 4096 then .ok e else .error (.fieldTooLong field n)

/-- `AlarmLevel.__init__`: validate one level record against parent alarm
`n` (name) and `i` (index), producing the level entity or the first failing
check's error.  The checks run in source order: `details` < 256,
`description` < 256, `cause`/`effect`/`action` < 4096, the optional
`extended_details`/`extended_description` < 4096 (overriding the base field
when present), then the case-folded severity is looked up.  The
`alarm_model_state` lookup cannot fail once the `itu_severities` one
succeeded (same key set), so it is read with a default. -/
def AlarmLevel.init (n : String) (i : JVal) (l : LevelRecord) :
    Except AlarmError AlarmLevel :=
  if l.details.length ≥ 256 then .error (.fieldTooLong "details" n)
  else if l.description.length ≥ 256 then .error (.fieldTooLong "description" n)
  else if l.cause.length ≥ 4096 then .error (.fieldTooLong "cause" n)
  else if l.effect.length ≥ 4096 then .error (.fieldTooLong "effect" n)
  else if l.action.length ≥ 4096 then .error (.fieldTooLong "action" n)
  else
    match checkOverride n "extended_details" l.details l.extended_details with
    | .error e => .error e
    | .ok details =>
      match checkOverride n "extended_description" l.description l.extended_description with
      | .error e => .error e
      | .ok description =>
        match itu_severities.lookup (pyLower l.severity) with
        | some code =>
            .ok { details := details, description := description,
                  cause := l.cause, effect := l.effect, action := l.action,
                  itu_severity := code,
                  oid := pyStr i ++ "." ++
                    toString ((alarm_model_state.lookup (pyLower l.severity)).getD 0),
                  severity_string := l.severity }
        | none => .error (.invalidSeverity l.severity n)

/-- Python dict update `m[k] = v`: replace the value at an existing key in
place, otherwise append the new binding.  A deterministic (insertion-ordered)
refinement of the CPython hash table. -/
def dict_insert (m : List (Nat × AlarmLevel)) (k : Nat) (v : AlarmLevel) :
    List (Nat × AlarmLevel) :=
  match m with
  | [] => [(k, v)]
  | (k', v') :: rest =>
    if k' = k then (k, v) :: rest else (k', v') :: dict_insert rest k v

/-- The `for level in alarm['levels']` loop of `Alarm.__init__`: validate each
level, key it into the dict by ITU severity, and track whether a cleared /
non-cleared severity has been seen. -/
def Alarm.processLevels (n : String) (i : JVal) :
    List LevelRecord → List (Nat × AlarmLevel) → Bool → Bool →
    Except AlarmError (List (Nat × AlarmLevel) × Bool × Bool)
  | [], acc, fc, fnc => .ok (acc, fc, fnc)
  | l :: ls, acc, fc, fnc =>
    match AlarmLevel.init n i l with
    | .error e => .error e
    | .ok lv =>
      if lv.itu_severity = alarm_severities_CLEARED then
        Alarm.processLevels n i ls (dict_insert acc lv.itu_severity lv) true fnc
      else
        Alarm.processLevels n i ls (dict_insert acc lv.itu_severity lv) fc true

/-- `Alarm.__init__`: check the case-folded cause against `valid_causes`,
process every level, then require that a cleared level was found and that a
non-cleared one was (in that order). -/
def Alarm.init (r : AlarmRecord) : Except AlarmError Alarm :=
  if pyLower r.cause ∈ valid_causes then
    match Alarm.processLevels r.name r.index r.levels [] false false with
    | .error e => .error e
    | .ok (lvls, fc, fnc) =>
      if fc then
        if fnc then .ok ⟨r.name, r.index, r.cause, lvls⟩
        else .error (.missingNonClearedSeverity r.name)
      else .error (.missingClearedSeverity r.name)
  else .error (.invalidCause r.cause r.name)

/-- `parse_alarms_file`: extract the `alarms` list (failing when the key is
absent) and validate every record in order, aborting on the first failure. -/
def parse_alarms_file (doc : AlarmsDoc) : Except AlarmError (List Alarm) :=
  match doc.alarms with
  | none => .error .missingAlarmsKey
  | some alarms => alarms.mapM Alarm.init

/-- Python `str(tuple(...))` over pre-rendered element strings: `()` when
empty, a trailing comma for a 1-tuple, comma-space separated otherwise. -/
def pyTupleStr (xs : List String) : String :=
  match xs with
  | [] => "()"
  | [x] => "(" ++ x ++ ",)"
  | _ => "(" ++ String.intercalate ", " xs ++ ")"

/-- `render_alarm`: `NAME = (index, code_1, ..., code_k)\n` where the codes
are the keys of the `_levels` dict in iteration order. -/
def render_alarm (a : Alarm) : String :=
  pyUpper a.name ++ " = " ++
    pyTupleStr (pyRepr a.index :: a.levels.map (fun kv => toString kv.1)) ++ "\n"

/-- The fixed CSV header row of `alarms_to_csv` (note `cause` twice). -/
def csv_columns : List String :=
  ["OID", "ITU_severity", "name", "cause", "severity",
   "description", "details", "cause", "effect", "action"]

/-- The per-(alarm, level) data row of `alarms_to_csv`, cells in `writerow`
order (the integer ITU severity is rendered in decimal by the csv writer). -/
def csv_values (a : Alarm) (lv : AlarmLevel) : List String :=
  [lv.oid, toString lv.itu_severity, a.name, a.cause, lv.severity_string,
   lv.description, lv.details, lv.cause, lv.effect, lv.action]

/-- `alarms_to_csv` at row granularity: header row, then for every document
(in order), for every alarm (in order), for every level (dict iteration
order) one data row; any parse failure aborts the whole rendering. -/
def alarms_to_csv (docs : List AlarmsDoc) : Except AlarmError (List (List String)) :=
  match docs.mapM parse_alarms_file with
  | .error e => .error e
  | .ok alarmLists =>
    .ok (csv_columns ::
      (alarmLists.flatten.flatMap fun a =>
        a.levels.map fun kv => csv_values a kv.2))

/-- `Except.isOk` as a plain `Bool`, for decidable statements about
validation outcomes. -/
def isOkE {ε α : Type} : Except ε α → Bool
  | .ok _ => true
  | .error _ => false

/-- Extract the success value of an `Except`, with a default. -/
def exOkD {ε α : Type} (d : α) : Except ε α → α
  | .ok a => a
  | .error _ => d

/-- The ITU severity code a level record resolves to (0 when invalid;
only read under validity). -/
def ituOf (l : LevelRecord) : Nat :=
  (itu_severities.lookup (pyLower l.severity)).getD 0

/-- The alarm-model-state ordinal a level record resolves to. -/
def msOf (l : LevelRecord) : Nat :=
  (alarm_model_state.lookup (pyLower l.severity)).getD 0

/-- Whether the level record's case-folded severity is a recognized name. -/
def sevValid (l : LevelRecord) : Bool :=
  (itu_severities.lookup (pyLower l.severity)).isSome

/-- All per-level checks of `AlarmLevel.__init__` as one boolean: the field
length ceilings and severity recognition.  `AlarmLevel.init` succeeds exactly
on records satisfying this. -/
def levelOk (l : LevelRecord) : Bool :=
  decide (l.details.length < 256) && decide (l.description.length < 256) &&
  decide (l.cause.length < 4096) && decide (l.effect.length < 4096) &&
  decide (l.action.length < 4096) &&
  (match l.extended_details with
   | none => true
   | some e => decide (e.length < 4096)) &&
  (match l.extended_description with
   | none => true
   | some e => decide (e.length < 4096)) &&
  sevValid l

/-- The entity `AlarmLevel.__init__` constructs on success: base fields with
the optional overrides applied, the resolved ITU code, and the derived OID
suffix `str(index) + "." + str(model_state)`. -/
def mkLevel (n : String) (i : JVal) (l : LevelRecord) : AlarmLevel :=
  { details := l.extended_details.getD l.details,
    description := l.extended_description.getD l.description,
    cause := l.cause, effect := l.effect, action := l.action,
    itu_severity := ituOf l,
    oid := pyStr i ++ "." ++ toString (msOf l),
    severity_string := l.severity }

/-- A cleared-severity sample level record (witness data). -/
def clearedL : LevelRecord :=
  { details := "d", description := "de", cause := "c", effect := "e",
    action := "a", severity := "CLEARED" }

/-- A major-severity sample level record (witness data). -/
def majorL : LevelRecord :=
  { details := "d2", description := "de2", cause := "c2", effect := "e2",
    action := "a2", severity := "major" }

/-- A fully valid sample alarm record (witness data). -/
def sampleRec : AlarmRecord :=
  { name := "cool_alarm", index := .int 1000, cause := "Software_Error",
    levels := [clearedL, majorL] }

/-- The alarm entity `sampleRec` validates to. -/
def sampleAlarm : Alarm :=
  exOkD ⟨"", .int 0, "", []⟩ (Alarm.init sampleRec)

/-- A record with two cleared levels and one major level: all fields valid,
duplicate cleared severity. -/
def dupClearedRec : AlarmRecord :=
  { name := "dup_alarm", index := .int 7, cause := "software_error",
    levels := [clearedL, clearedL, majorL] }

/-- A record whose levels are exactly two cleared levels. -/
def twoClearedRec : AlarmRecord :=
  { name := "two_cleared", index := .int 8, cause := "software_error",
    levels := [clearedL, clearedL] }

/-- A record with a single non-cleared level and no cleared one. -/
def noClearedRec : AlarmRecord :=
  { name := "no_cleared", index := .int 9, cause := "software_error",
    levels := [majorL] }

/-- A record with an unrecognized cause. -/
def badCauseRec : AlarmRecord :=
  { name := "bad_cause", index := .int 10, cause := "hardware_error",
    levels := [clearedL, majorL] }

/-- A level record carrying both override fields (witness data for the
override claim). -/
def overrideL : LevelRecord :=
  { details := "short", description := "short too", cause := "c", effect := "e",
    action := "a", severity := "minor",
    extended_details := some "the long form", extended_description := some "the long description" }

/-- A 255-character string. -/
def s255 : String := ⟨List.replicate 255 (Char.ofNat 120)⟩

/-- A 256-character string. -/
def s256 : String := ⟨List.replicate 256 (Char.ofNat 120)⟩

/-- A 4096-character string. -/
def s4096 : String := ⟨List.replicate 4096 (Char.ofNat 120)⟩

/-- A record whose only level is cleared. -/
def oneClearedRec : AlarmRecord :=
  { name := "one_cleared", index := .int 11, cause := "software_error",
    levels := [clearedL] }

/-- A second, distinguishable cleared-severity level record. -/
def clearedL2 : LevelRecord :=
  { details := "d3", description := "de3", cause := "c3", effect := "e3",
    action := "a3", severity := "Cleared" }

/-- A record with two distinct cleared levels followed by a major level. -/
def dupDistinctRec : AlarmRecord :=
  { name := "dup_distinct", index := .int 12, cause := "software_error",
    levels := [clearedL, clearedL2, majorL] }

/-- The alarm entity `dupClearedRec` validates to. -/
def dupClearedAlarm : Alarm :=
  exOkD ⟨"", .int 0, "", []⟩ (Alarm.init dupClearedRec)

/-- A document with no top-level `alarms` key. -/
def docNone : AlarmsDoc := ⟨none⟩

/-- A document of two valid alarm records. -/
def docGood : AlarmsDoc := ⟨some [sampleRec, dupClearedRec]⟩

/-- A document whose second record has an invalid cause. -/
def docBad : AlarmsDoc := ⟨some [sampleRec, badCauseRec, sampleRec]⟩

/-- Level with a 256-character `details` and no override. -/
def detailsLongL : LevelRecord := { clearedL with details := s256 }

/-- Level with a 255-character `details`. -/
def details255L : LevelRecord := { clearedL with details := s255 }

/-- Level with a 256-character `description`. -/
def descriptionLongL : LevelRecord := { clearedL with description := s256 }

/-- Level with a 4096-character `cause`. -/
def causeLongL : LevelRecord := { clearedL with cause := s4096 }

/-- Level with a 4096-character `effect`. -/
def effectLongL : LevelRecord := { clearedL with effect := s4096 }

/-- Level with a 4096-character `action`. -/
def actionLongL : LevelRecord := { clearedL with action := s4096 }

/-- Level with a 4096-character `extended_details`. -/
def extDetailsLongL : LevelRecord := { clearedL with extended_details := some s4096 }

/-- Level with a 4096-character `extended_description`. -/
def extDescriptionLongL : LevelRecord :=
  { clearedL with extended_description := some s4096 }


/-! ### Level validator lemmas -/

/-- Full case analysis of `AlarmLevel.init`: on a record passing `levelOk` it
returns exactly `mkLevel`; otherwise it returns a field-too-long error naming
the offending field or an invalid-severity error. -/
theorem level_init_cases (n : String) (i : JVal) (l : LevelRecord) :
    (levelOk l = true ∧ AlarmLevel.init n i l = .ok (mkLevel n i l)) ∨
    (levelOk l = false ∧ ∃ e, AlarmLevel.init n i l = .error e ∧
       ((∃ f, e = .fieldTooLong f n) ∨ e = .invalidSeverity l.severity n)) := by
  by_cases h1 : l.details.length ≥ 256
  · refine .inr ⟨?_, .fieldTooLong "details" n, ?_, .inl ⟨"details", rfl⟩⟩
    · have hd : decide (l.details.length < 256) = false := by
        simp only [decide_eq_false_iff_not]; omega
      simp [levelOk, hd]
    · unfold AlarmLevel.init
      rw [if_pos h1]
  rw [show (¬l.details.length ≥ 256) ↔ l.details.length < 256 by omega] at h1
  by_cases h2 : l.description.length ≥ 256
  · refine .inr ⟨?_, .fieldTooLong "description" n, ?_, .inl ⟨"description", rfl⟩⟩
    · have hd : decide (l.description.length < 256) = false := by
        simp only [decide_eq_false_iff_not]; omega
      simp [levelOk, hd]
    · unfold AlarmLevel.init
      rw [if_neg (by omega), if_pos h2]
  rw [show (¬l.description.length ≥ 256) ↔ l.description.length < 256 by omega] at h2
  by_cases h3 : l.cause.length ≥ 4096
  · refine .inr ⟨?_, .fieldTooLong "cause" n, ?_, .inl ⟨"cause", rfl⟩⟩
    · have hd : decide (l.cause.length < 4096) = false := by
        simp only [decide_eq_false_iff_not]; omega
      simp [levelOk, hd]
    · unfold AlarmLevel.init
      rw [if_neg (by omega), if_neg (by omega), if_pos h3]
  rw [show (¬l.cause.length ≥ 4096) ↔ l.cause.length < 4096 by omega] at h3
  by_cases h4 : l.effect.length ≥ 4096
  · refine .inr ⟨?_, .fieldTooLong "effect" n, ?_, .inl ⟨"effect", rfl⟩⟩
    · have hd : decide (l.effect.length < 4096) = false := by
        simp only [decide_eq_false_iff_not]; omega
      simp [levelOk, hd]
    · unfold AlarmLevel.init
      rw [if_neg (by omega), if_neg (by omega), if_neg (by omega), if_pos h4]
  rw [show (¬l.effect.length ≥ 4096) ↔ l.effect.length < 4096 by omega] at h4
  by_cases h5 : l.action.length ≥ 4096
  · refine .inr ⟨?_, .fieldTooLong "action" n, ?_, .inl ⟨"action", rfl⟩⟩
    · have hd : decide (l.action.length < 4096) = false := by
        simp only [decide_eq_false_iff_not]; omega
      simp [levelOk, hd]
    · unfold AlarmLevel.init
      rw [if_neg (by omega), if_neg (by omega), if_neg (by omega),
          if_neg (by omega), if_pos h5]
  rw [show (¬l.action.length ≥ 4096) ↔ l.action.length < 4096 by omega] at h5
  have hinit : AlarmLevel.init n i l =
      match checkOverride n "extended_details" l.details l.extended_details with
      | .error e => .error e
      | .ok details =>
        match checkOverride n "extended_description" l.description l.extended_description with
        | .error e => .error e
        | .ok description =>
          match itu_severities.lookup (pyLower l.severity) with
          | some code =>
              .ok { details := details, description := description,
                    cause := l.cause, effect := l.effect, action := l.action,
                    itu_severity := code,
                    oid := pyStr i ++ "." ++
                      toString ((alarm_model_state.lookup (pyLower l.severity)).getD 0),
                    severity_string := l.severity }
          | none => .error (.invalidSeverity l.severity n) := by
    unfold AlarmLevel.init
    rw [if_neg (by omega), if_neg (by omega), if_neg (by omega),
        if_neg (by omega), if_neg (by omega)]
  rw [hinit]
  cases hde : l.extended_details with
  | some ed =>
    by_cases hed : ed.length < 4096
    · cases hdD : l.extended_description with
      | some eD =>
        by_cases heD : eD.length < 4096
        · cases hcode : itu_severities.lookup (pyLower l.severity) with
          | some code =>
            refine .inl ⟨?_, ?_⟩
            · simp only [levelOk, sevValid, hde, hdD, hcode, Option.isSome_some,
                Bool.and_eq_true, decide_eq_true_eq]
              exact ⟨⟨⟨⟨⟨⟨⟨h1, h2⟩, h3⟩, h4⟩, h5⟩, hed⟩, heD⟩, trivial⟩
            · simp [checkOverride, hed, heD, mkLevel, ituOf, msOf, hde, hdD, hcode]
          | none =>
            refine .inr ⟨?_, .invalidSeverity l.severity n, ?_, .inr rfl⟩
            · simp [levelOk, sevValid, hcode]
            · simp [checkOverride, hed, heD, hcode]
        · refine .inr ⟨?_, .fieldTooLong "extended_description" n, ?_,
            .inl ⟨"extended_description", rfl⟩⟩
          · have hd : decide (eD.length < 4096) = false := by
              simp only [decide_eq_false_iff_not]; omega
            simp [levelOk, hdD, hd]
          · simp [checkOverride, hed, heD]
      | none =>
        cases hcode : itu_severities.lookup (pyLower l.severity) with
        | some code =>
          refine .inl ⟨?_, ?_⟩
          · simp only [levelOk, sevValid, hde, hdD, hcode, Option.isSome_some,
              Bool.and_eq_true, decide_eq_true_eq]
            exact ⟨⟨⟨⟨⟨⟨⟨h1, h2⟩, h3⟩, h4⟩, h5⟩, hed⟩, trivial⟩, trivial⟩
          · simp [checkOverride, hed, mkLevel, ituOf, msOf, hde, hdD, hcode]
        | none =>
          refine .inr ⟨?_, .invalidSeverity l.severity n, ?_, .inr rfl⟩
          · simp [levelOk, sevValid, hcode]
          · simp [checkOverride, hed, hcode]
    · refine .inr ⟨?_, .fieldTooLong "extended_details" n, ?_,
        .inl ⟨"extended_details", rfl⟩⟩
      · have hd : decide (ed.length < 4096) = false := by
          simp only [decide_eq_false_iff_not]; omega
        simp [levelOk, hde, hd]
      · simp [checkOverride, hed]
  | none =>
    cases hdD : l.extended_description with
    | some eD =>
      by_cases heD : eD.length < 4096
      · cases hcode : itu_severities.lookup (pyLower l.severity) with
        | some code =>
          refine .inl ⟨?_, ?_⟩
          · simp only [levelOk, sevValid, hde, hdD, hcode, Option.isSome_some,
              Bool.and_eq_true, decide_eq_true_eq]
            exact ⟨⟨⟨⟨⟨⟨⟨h1, h2⟩, h3⟩, h4⟩, h5⟩, trivial⟩, heD⟩, trivial⟩
          · simp [checkOverride, heD, mkLevel, ituOf, msOf, hde, hdD, hcode]
        | none =>
          refine .inr ⟨?_, .invalidSeverity l.severity n, ?_, .inr rfl⟩
          · simp [levelOk, sevValid, hcode]
          · simp [checkOverride, heD, hcode]
      · refine .inr ⟨?_, .fieldTooLong "extended_description" n, ?_,
          .inl ⟨"extended_description", rfl⟩⟩
        · have hd : decide (eD.length < 4096) = false := by
            simp only [decide_eq_false_iff_not]; omega
          simp [levelOk, hdD, hd]
        · simp [checkOverride, heD]
    | none =>
      cases hcode : itu_severities.lookup (pyLower l.severity) with
      | some code =>
        refine .inl ⟨?_, ?_⟩
        · simp only [levelOk, sevValid, hde, hdD, hcode, Option.isSome_some,
            Bool.and_eq_true, decide_eq_true_eq]
          exact ⟨⟨⟨⟨⟨⟨⟨h1, h2⟩, h3⟩, h4⟩, h5⟩, trivial⟩, trivial⟩, trivial⟩
        · simp [checkOverride, mkLevel, ituOf, msOf, hde, hdD, hcode]
      | none =>
        refine .inr ⟨?_, .invalidSeverity l.severity n, ?_, .inr rfl⟩
        · simp [levelOk, sevValid, hcode]
        · simp [checkOverride, hcode]

/-- On a record passing all per-level checks, `AlarmLevel.init` succeeds and
builds exactly `mkLevel`. -/
theorem level_init_ok (n : String) (i : JVal) (l : LevelRecord)
    (h : levelOk l = true) : AlarmLevel.init n i l = .ok (mkLevel n i l) := by
  rcases level_init_cases n i l with ⟨_, h2⟩ | ⟨h1, _⟩
  · exact h2
  · rw [h] at h1; exact absurd h1 (by simp)

/-- A successful `AlarmLevel.init` means the record passed `levelOk`, and the
entity returned is `mkLevel`. -/
theorem level_init_ok_inv (n : String) (i : JVal) (l : LevelRecord)
    (lv : AlarmLevel) (h : AlarmLevel.init n i l = .ok lv) :
    levelOk l = true ∧ lv = mkLevel n i l := by
  rcases level_init_cases n i l with ⟨h1, h2⟩ | ⟨_, e, h2, _⟩
  · rw [h2] at h
    exact ⟨h1, (Except.ok.injEq _ _ ▸ h).symm⟩
  · rw [h2] at h
    exact absurd h (by simp)

/-- `AlarmLevel.init` never reports an invalid cause (the cause enumeration
is the alarm validator's check, not the level validator's). -/
theorem level_init_ne_invalidCause (n : String) (i : JVal) (l : LevelRecord)
    (c n' : String) :
    AlarmLevel.init n i l ≠ .error (.invalidCause c n') := by
  rcases level_init_cases n i l with ⟨_, h2⟩ | ⟨_, e, h2, he⟩
  · rw [h2]; simp
  · rw [h2]
    rcases he with ⟨f, rfl⟩ | rfl <;> simp

/-- `levelOk` implies the severity is recognized. -/
theorem levelOk_sevValid (l : LevelRecord) (h : levelOk l = true) :
    sevValid l = true := by
  simp only [levelOk, Bool.and_eq_true] at h
  exact h.2

/-! ### Severity table lemmas -/

/-- A recognized severity resolves in `alarm_model_state` as well (the two
tables share their key set), and `msOf` reads that entry. -/
theorem model_state_total (l : LevelRecord) (h : sevValid l = true) :
    alarm_model_state.lookup (pyLower l.severity) = some (msOf l) := by
  simp only [sevValid, Option.isSome_iff_exists] at h
  obtain ⟨c, hc⟩ := h
  simp only [itu_severities, List.lookup, alarm_model_state, msOf] at hc ⊢
  repeat' split at hc
  all_goals simp_all [List.lookup]

/-- A recognized severity is `cleared` (after case folding) exactly when its
ITU code is the cleared one. -/
theorem ituOf_cleared_iff (l : LevelRecord) (h : sevValid l = true) :
    (ituOf l = alarm_severities_CLEARED ↔ pyLower l.severity = "cleared") := by
  simp only [sevValid, Option.isSome_iff_exists] at h
  obtain ⟨c, hc⟩ := h
  simp only [itu_severities, List.lookup, ituOf] at hc ⊢
  repeat' split at hc
  all_goals
    simp_all [alarm_severities_CLEARED, alarm_severities_INDETERMINATE,
      alarm_severities_CRITICAL, alarm_severities_MAJOR,
      alarm_severities_MINOR, alarm_severities_WARNING]
  all_goals
    first
    | (rename_i hbeq _; exact (of_decide_eq_true hbeq).symm)
    | (intro hcl; simp_all)

/-! ### Dict lemmas -/

/-- Every entry of `dict_insert m k v` is the new binding or one of `m`. -/
theorem dict_insert_mem (m : List (Nat × AlarmLevel)) (k : Nat) (v : AlarmLevel) :
    ∀ e ∈ dict_insert m k v, e = (k, v) ∨ e ∈ m := by
  induction m with
  | nil => simp [dict_insert]
  | cons hd tl ih =>
    intro e he
    unfold dict_insert at he
    split at he
    · simp only [List.mem_cons] at he ⊢
      tauto
    · simp only [List.mem_cons] at he ⊢
      rcases he with he | he
      · tauto
      · rcases ih e he with h | h <;> tauto

/-- Key membership after `dict_insert`: the new key or an old one. -/
theorem dict_insert_keys (m : List (Nat × AlarmLevel)) (k : Nat) (v : AlarmLevel)
    (a : Nat) :
    (a ∈ (dict_insert m k v).map Prod.fst ↔ a = k ∨ a ∈ m.map Prod.fst) := by
  induction m with
  | nil => simp [dict_insert]
  | cons hd tl ih =>
    unfold dict_insert
    split
    · rename_i heq
      subst heq
      simp
    · simp only [List.map_cons, List.mem_cons, ih]
      tauto

/-- `dict_insert` preserves distinctness of keys. -/
theorem dict_insert_keys_nodup (m : List (Nat × AlarmLevel)) (k : Nat)
    (v : AlarmLevel) (h : (m.map Prod.fst).Nodup) :
    ((dict_insert m k v).map Prod.fst).Nodup := by
  induction m with
  | nil => simp [dict_insert]
  | cons hd tl ih =>
    simp only [List.map_cons, List.nodup_cons] at h
    unfold dict_insert
    split
    · rename_i heq
      subst heq
      simp only [List.map_cons, List.nodup_cons]
      exact h
    · rename_i hne
      simp only [List.map_cons, List.nodup_cons, dict_insert_keys]
      refine ⟨?_, ih h.2⟩
      rintro (rfl | hmem)
      · exact hne rfl
      · exact h.1 hmem

/-! ### Level-loop lemmas -/

/-- Step equation of the level loop when the head level fails validation. -/
theorem processLevels_cons_err (n : String) (i : JVal) (l : LevelRecord)
    (ls : List LevelRecord) (acc : List (Nat × AlarmLevel)) (fc fnc : Bool)
    (e : AlarmError) (hlv : AlarmLevel.init n i l = .error e) :
    Alarm.processLevels n i (l :: ls) acc fc fnc = .error e := by
  rw [Alarm.processLevels, hlv]

/-- Step equation of the level loop when the head level validates. -/
theorem processLevels_cons_ok (n : String) (i : JVal) (l : LevelRecord)
    (ls : List LevelRecord) (acc : List (Nat × AlarmLevel)) (fc fnc : Bool)
    (lv : AlarmLevel) (hlv : AlarmLevel.init n i l = .ok lv) :
    Alarm.processLevels n i (l :: ls) acc fc fnc =
      if lv.itu_severity = alarm_severities_CLEARED then
        Alarm.processLevels n i ls (dict_insert acc lv.itu_severity lv) true fnc
      else
        Alarm.processLevels n i ls (dict_insert acc lv.itu_severity lv) fc true := by
  rw [Alarm.processLevels, hlv]

/-- Invariants of a successful run of the level loop: every entry of the
resulting dict is an inherited one or was built by a successful
`AlarmLevel.init` and keyed by its ITU code; keys only grow; a raised
found-cleared (resp. found-non-cleared) flag is explained by a cleared
(resp. non-cleared) key in the dict; key distinctness is preserved. -/
theorem processLevels_inv (n : String) (i : JVal) :
    ∀ (ls : List LevelRecord) (acc : List (Nat × AlarmLevel)) (fc fnc : Bool)
      (m : List (Nat × AlarmLevel)) (fc' fnc' : Bool),
      Alarm.processLevels n i ls acc fc fnc = .ok (m, fc', fnc') →
      (∀ e ∈ m, e ∈ acc ∨ ∃ l ∈ ls, levelOk l = true ∧ e = (ituOf l, mkLevel n i l)) ∧
      (∀ k ∈ acc.map Prod.fst, k ∈ m.map Prod.fst) ∧
      (fc' = true → fc = true ∨ alarm_severities_CLEARED ∈ m.map Prod.fst) ∧
      (fnc' = true → fnc = true ∨ ∃ k ∈ m.map Prod.fst, k ≠ alarm_severities_CLEARED) ∧
      ((acc.map Prod.fst).Nodup → (m.map Prod.fst).Nodup) := by
  intro ls
  induction ls with
  | nil =>
    intro acc fc fnc m fc' fnc' h
    simp only [Alarm.processLevels, Except.ok.injEq, Prod.mk.injEq] at h
    obtain ⟨rfl, rfl, rfl⟩ := h
    exact ⟨fun e he => .inl he, fun k hk => hk,
      fun h => .inl h, fun h => .inl h, fun h => h⟩
  | cons l ls ih =>
    intro acc fc fnc m fc' fnc' h
    rw [Alarm.processLevels] at h
    cases hlv : AlarmLevel.init n i l with
    | error e => rw [hlv] at h; exact absurd h (by simp)
    | ok lv =>
      rw [hlv] at h
      obtain ⟨hok, rfl⟩ := level_init_ok_inv n i l lv hlv
      have hitu : (mkLevel n i l).itu_severity = ituOf l := rfl
      simp only [hitu] at h
      by_cases hcl : ituOf l = alarm_severities_CLEARED
      · rw [if_pos hcl] at h
        obtain ⟨hent, hmono, hfc, hfnc, hnd⟩ := ih _ _ _ _ _ _ h
        refine ⟨?_, ?_, ?_, ?_, ?_⟩
        · intro e he
          rcases hent e he with hacc | ⟨l', hl', hok', rfl⟩
          · rcases dict_insert_mem _ _ _ e hacc with rfl | hacc'
            · exact .inr ⟨l, List.mem_cons_self _ _, hok, rfl⟩
            · exact .inl hacc'
          · exact .inr ⟨l', List.mem_cons_of_mem _ hl', hok', rfl⟩
        · intro k hk
          exact hmono k ((dict_insert_keys _ _ _ k).mpr (.inr hk))
        · intro _
          refine .inr (hmono _ ?_)
          rw [dict_insert_keys]
          exact .inl hcl.symm
        · intro hf
          rcases hfnc hf with hf' | hex
          · exact .inl hf'
          · exact .inr hex
        · intro hnda
          exact hnd (dict_insert_keys_nodup _ _ _ hnda)
      · rw [if_neg hcl] at h
        obtain ⟨hent, hmono, hfc, hfnc, hnd⟩ := ih _ _ _ _ _ _ h
        refine ⟨?_, ?_, ?_, ?_, ?_⟩
        · intro e he
          rcases hent e he with hacc | ⟨l', hl', hok', rfl⟩
          · rcases dict_insert_mem _ _ _ e hacc with rfl | hacc'
            · exact .inr ⟨l, List.mem_cons_self _ _, hok, rfl⟩
            · exact .inl hacc'
          · exact .inr ⟨l', List.mem_cons_of_mem _ hl', hok', rfl⟩
        · intro k hk
          exact hmono k ((dict_insert_keys _ _ _ k).mpr (.inr hk))
        · exact hfc
        · intro _
          refine .inr ⟨ituOf l, hmono _ ?_, hcl⟩
          rw [dict_insert_keys]
          exact .inl rfl
        · intro hnda
          exact hnd (dict_insert_keys_nodup _ _ _ hnda)

/-- When every level record passes `levelOk`, the level loop succeeds and the
two flags compute to whether a cleared / non-cleared severity occurs. -/
theorem processLevels_run (n : String) (i : JVal) :
    ∀ (ls : List LevelRecord) (acc : List (Nat × AlarmLevel)) (fc fnc : Bool),
      (∀ l ∈ ls, levelOk l = true) →
      ∃ m, Alarm.processLevels n i ls acc fc fnc =
        .ok (m, fc || ls.any (fun l => ituOf l == alarm_severities_CLEARED),
                fnc || ls.any (fun l => ituOf l != alarm_severities_CLEARED)) := by
  intro ls
  induction ls with
  | nil =>
    intro acc fc fnc _
    exact ⟨acc, by simp [Alarm.processLevels]⟩
  | cons l ls ih =>
    intro acc fc fnc h
    have hok := h l (List.mem_cons_self _ _)
    have htl : ∀ l' ∈ ls, levelOk l' = true :=
      fun l' hl' => h l' (List.mem_cons_of_mem _ hl')
    rw [Alarm.processLevels, level_init_ok n i l hok]
    have hitu : (mkLevel n i l).itu_severity = ituOf l := rfl
    simp only [hitu]
    by_cases hcl : ituOf l = alarm_severities_CLEARED
    · rw [if_pos hcl]
      obtain ⟨m, hm⟩ := ih (dict_insert acc (ituOf l) (mkLevel n i l)) true fnc htl
      refine ⟨m, ?_⟩
      rw [hm]
      have h1 : (ituOf l == alarm_severities_CLEARED) = true := by
        simp [hcl]
      have h2 : (ituOf l != alarm_severities_CLEARED) = false := by
        simp [hcl]
      simp [h1, h2]
    · rw [if_neg hcl]
      obtain ⟨m, hm⟩ := ih (dict_insert acc (ituOf l) (mkLevel n i l)) fc true htl
      refine ⟨m, ?_⟩
      rw [hm]
      have h1 : (ituOf l == alarm_severities_CLEARED) = false := by
        simp [hcl]
      have h2 : (ituOf l != alarm_severities_CLEARED) = true := by
        simp [hcl]
      simp [h1, h2]

/-! ### Alarm validator lemmas -/

/-- The level loop never reports an invalid cause. -/
theorem processLevels_ne_invalidCause (n : String) (i : JVal) :
    ∀ (ls : List LevelRecord) (acc : List (Nat × AlarmLevel)) (fc fnc : Bool)
      (c n' : String),
      Alarm.processLevels n i ls acc fc fnc ≠ .error (.invalidCause c n') := by
  intro ls
  induction ls with
  | nil =>
    intro acc fc fnc c n'
    simp [Alarm.processLevels]
  | cons l ls ih =>
    intro acc fc fnc c n' h
    cases hlv : AlarmLevel.init n i l with
    | error e =>
      rw [processLevels_cons_err n i l ls acc fc fnc e hlv] at h
      simp only [Except.error.injEq] at h
      rw [h] at hlv
      exact level_init_ne_invalidCause n i l c n' hlv
    | ok lv =>
      rw [processLevels_cons_ok n i l ls acc fc fnc lv hlv] at h
      split at h
      · exact ih _ _ _ _ _ h
      · exact ih _ _ _ _ _ h

/-- Inversion of a successful `Alarm.init`: the entity keeps the record's
name, index and cause verbatim; every level entry was built by a successful
level validation keyed by its ITU code; the keys are distinct; and there is
at least one level. -/
theorem alarm_init_inv (r : AlarmRecord) (a : Alarm) (h : Alarm.init r = .ok a) :
    a.name = r.name ∧ a.index = r.index ∧ a.cause = r.cause ∧
    (∀ e ∈ a.levels, ∃ l ∈ r.levels, levelOk l = true ∧
       e = (ituOf l, mkLevel r.name r.index l)) ∧
    (a.levels.map Prod.fst).Nodup ∧ a.levels ≠ [] := by
  unfold Alarm.init at h
  split at h
  case isFalse => exact absurd h (by simp)
  cases hpl : Alarm.processLevels r.name r.index r.levels [] false false with
  | error e => rw [hpl] at h; exact absurd h (by simp)
  | ok t =>
    rw [hpl] at h
    obtain ⟨lvls, fc, fnc⟩ := t
    cases fc with
    | false => exact absurd h (by simp)
    | true =>
      cases fnc with
      | false => exact absurd h (by simp)
      | true =>
        simp only [if_true] at h
        have ha : a = ⟨r.name, r.index, r.cause, lvls⟩ := by
          cases h; rfl
        subst ha
        obtain ⟨hent, _, hfc, _, hnd⟩ := processLevels_inv r.name r.index _ _ _ _ _ _ _ hpl
        refine ⟨rfl, rfl, rfl, ?_, hnd (by simp), ?_⟩
        · intro e he
          rcases hent e he with habs | hgood
          · exact absurd habs (by simp)
          · exact hgood
        · rcases hfc rfl with habs | hmem
          · exact absurd habs (by simp)
          · intro hnil
            have hl0 : lvls = [] := hnil
            rw [hl0] at hmem
            exact absurd hmem (by simp)

/-- Constructive success of `Alarm.init`: a valid cause, levels that all pass
`levelOk`, and both a cleared and a non-cleared severity among them yield an
entity (with the inherited fields and level-entry invariants). -/
theorem alarm_init_ok (r : AlarmRecord)
    (hc : pyLower r.cause ∈ valid_causes)
    (hl : ∀ l ∈ r.levels, levelOk l = true)
    (hcl : r.levels.any (fun l => ituOf l == alarm_severities_CLEARED) = true)
    (hnc : r.levels.any (fun l => ituOf l != alarm_severities_CLEARED) = true) :
    ∃ a, Alarm.init r = .ok a ∧ a.name = r.name ∧ a.index = r.index ∧
      a.cause = r.cause ∧
      (∀ e ∈ a.levels, ∃ l ∈ r.levels, levelOk l = true ∧
         e = (ituOf l, mkLevel r.name r.index l)) := by
  obtain ⟨m, hm⟩ := processLevels_run r.name r.index r.levels [] false false hl
  rw [hcl, hnc] at hm
  simp only [Bool.false_or] at hm
  have hinit : Alarm.init r = .ok ⟨r.name, r.index, r.cause, m⟩ := by
    unfold Alarm.init
    rw [if_pos hc, hm]
    rfl
  refine ⟨_, hinit, rfl, rfl, rfl, ?_⟩
  obtain ⟨hent, _, _, _, _⟩ := processLevels_inv r.name r.index _ _ _ _ _ _ _ hm
  intro e he
  rcases hent e he with habs | hgood
  · exact absurd habs (by simp)
  · exact hgood

/-- With a valid cause and individually valid levels, an alarm whose levels
are all cleared (and nonempty) fails the found-non-cleared assertion. -/
theorem alarm_init_missing_noncleared (r : AlarmRecord)
    (hc : pyLower r.cause ∈ valid_causes)
    (hl : ∀ l ∈ r.levels, levelOk l = true)
    (hne : r.levels ≠ [])
    (hall : ∀ l ∈ r.levels, pyLower l.severity = "cleared") :
    Alarm.init r = .error (.missingNonClearedSeverity r.name) := by
  have hcleared : ∀ l ∈ r.levels, ituOf l = alarm_severities_CLEARED := by
    intro l hl'
    exact (ituOf_cleared_iff l (levelOk_sevValid l (hl l hl'))).mpr (hall l hl')
  have hclB : r.levels.any (fun l => ituOf l == alarm_severities_CLEARED) = true := by
    cases hlv : r.levels with
    | nil => exact absurd hlv hne
    | cons x xs =>
      simp only [List.any_cons, Bool.or_eq_true, beq_iff_eq]
      exact .inl (hcleared x (hlv ▸ List.mem_cons_self _ _))
  have hncB : r.levels.any (fun l => ituOf l != alarm_severities_CLEARED) = false := by
    rw [List.any_eq_false]
    intro l hl'
    simp [hcleared l hl']
  obtain ⟨m, hm⟩ := processLevels_run r.name r.index r.levels [] false false hl
  rw [hclB, hncB] at hm
  simp only [Bool.false_or, Bool.or_false] at hm
  unfold Alarm.init
  rw [if_pos hc, hm]
  rfl

/-- With a valid cause and individually valid levels, an alarm with no
cleared level fails the found-cleared assertion. -/
theorem alarm_init_missing_cleared (r : AlarmRecord)
    (hc : pyLower r.cause ∈ valid_causes)
    (hl : ∀ l ∈ r.levels, levelOk l = true)
    (hnone : ∀ l ∈ r.levels, pyLower l.severity ≠ "cleared") :
    Alarm.init r = .error (.missingClearedSeverity r.name) := by
  have hclB : r.levels.any (fun l => ituOf l == alarm_severities_CLEARED) = false := by
    rw [List.any_eq_false]
    intro l hl'
    simp only [beq_iff_eq]
    intro hcl
    exact hnone l hl' ((ituOf_cleared_iff l (levelOk_sevValid l (hl l hl'))).mp hcl)
  obtain ⟨m, hm⟩ := processLevels_run r.name r.index r.levels [] false false hl
  rw [hclB] at hm
  simp only [Bool.false_or, Bool.or_false] at hm
  unfold Alarm.init
  rw [if_pos hc, hm]
  rfl

/-- `Alarm.init` reports an invalid cause exactly when the case-folded cause
is outside the three-member enumeration. -/
theorem alarm_init_invalidCause_iff (r : AlarmRecord) :
    (Alarm.init r = .error (.invalidCause r.cause r.name) ↔
      pyLower r.cause ∉ valid_causes) := by
  constructor
  · intro h hmem
    unfold Alarm.init at h
    rw [if_pos hmem] at h
    cases hpl : Alarm.processLevels r.name r.index r.levels [] false false with
    | error e =>
      rw [hpl] at h
      simp only [Except.error.injEq] at h
      rw [h] at hpl
      exact processLevels_ne_invalidCause r.name r.index _ _ _ _ _ _ hpl
    | ok t =>
      rw [hpl] at h
      obtain ⟨lvls, fc, fnc⟩ := t
      cases fc <;> cases fnc <;> simp at h
  · intro h
    unfold Alarm.init
    rw [if_neg h]

/-! ### Loader lemmas (mapM over Except) -/

/-- Bind on a success reduces. -/
theorem exc_bind_ok {α β : Type} (a : α) (g : α → Except AlarmError β) :
    (Except.ok a >>= g) = g a := rfl

/-- Bind on a failure short-circuits. -/
theorem exc_bind_fail {α β : Type} (e : AlarmError) (g : α → Except AlarmError β) :
    ((Except.error e : Except AlarmError α) >>= g) = .error e := rfl

/-- When every element maps successfully, `mapM` succeeds and the outputs
correspond pointwise and in order to the inputs. -/
theorem except_mapM_ok {α β : Type} (f : α → Except AlarmError β) :
    ∀ (l : List α), (∀ x ∈ l, isOkE (f x) = true) →
      ∃ bs, l.mapM f = .ok bs ∧ List.Forall₂ (fun x b => f x = .ok b) l bs := by
  intro l
  induction l with
  | nil =>
    intro _
    refine ⟨[], ?_, .nil⟩
    rw [List.mapM_nil]
    rfl
  | cons x xs ih =>
    intro h
    obtain ⟨bs, hbs, hfa⟩ := ih fun y hy => h y (List.mem_cons_of_mem _ hy)
    have hx := h x (List.mem_cons_self _ _)
    cases hfx : f x with
    | error e => rw [hfx] at hx; exact absurd hx (by simp [isOkE])
    | ok b =>
      refine ⟨b :: bs, ?_, .cons hfx hfa⟩
      rw [List.mapM_cons]
      show (f x >>= fun b => xs.mapM f >>= fun bs => pure (b :: bs)) = _
      rw [hfx, exc_bind_ok, hbs, exc_bind_ok]
      rfl

/-- The outputs of a pointwise-successful correspondence are what `mapM`
returns. -/
theorem except_mapM_of_forall2 {α β : Type} (f : α → Except AlarmError β) :
    ∀ (l : List α) (bs : List β),
      List.Forall₂ (fun x b => f x = .ok b) l bs → l.mapM f = .ok bs := by
  intro l
  induction l with
  | nil =>
    intro bs h
    cases h
    rw [List.mapM_nil]
    rfl
  | cons x xs ih =>
    intro bs h
    cases h with
    | cons hx hxs =>
      rw [List.mapM_cons]
      show (f x >>= fun b => xs.mapM f >>= fun bs => pure (b :: bs)) = _
      rw [hx, exc_bind_ok, ih _ hxs, exc_bind_ok]
      rfl

/-- `mapM` propagates the first failing element's error: successes before it
are discarded, elements after it are never mapped. -/
theorem except_mapM_first_fail {α β : Type} (f : α → Except AlarmError β) :
    ∀ (l1 : List α) (x : α) (l2 : List α) (e : AlarmError),
      (∀ y ∈ l1, isOkE (f y) = true) → f x = .error e →
      (l1 ++ x :: l2).mapM f = .error e := by
  intro l1
  induction l1 with
  | nil =>
    intro x l2 e _ hx
    rw [List.nil_append, List.mapM_cons]
    show (f x >>= fun b => l2.mapM f >>= fun bs => pure (b :: bs)) = _
    rw [hx, exc_bind_fail]
  | cons y l1 ih =>
    intro x l2 e h hx
    have hy := h y (List.mem_cons_self _ _)
    cases hfy : f y with
    | error e' => rw [hfy] at hy; exact absurd hy (by simp [isOkE])
    | ok b =>
      rw [List.cons_append, List.mapM_cons]
      show (f y >>= fun b => (l1 ++ x :: l2).mapM f >>= fun bs => pure (b :: bs)) = _
      rw [hfy, exc_bind_ok, ih x l2 e (fun z hz => h z (List.mem_cons_of_mem _ hz)) hx,
          exc_bind_fail]

/-! ### Dict lookup lemmas -/

/-- `find?` only depends on the predicate's values on the list. -/
theorem find?_congr {α : Type} (p q : α → Bool) :
    ∀ (l : List α), (∀ a ∈ l, p a = q a) → l.find? p = l.find? q := by
  intro l
  induction l with
  | nil => intro _; rfl
  | cons x xs ih =>
    intro h
    have hx := h x (List.mem_cons_self _ _)
    cases hq : q x with
    | true =>
      rw [List.find?_cons_of_pos _ (hx.trans hq), List.find?_cons_of_pos _ hq]
    | false =>
      rw [List.find?_cons_of_neg _ (by simp [hx.trans hq]),
          List.find?_cons_of_neg _ (by simp [hq])]
      exact ih fun a ha => h a (List.mem_cons_of_mem _ ha)

/-- A successful association-list lookup means the key is present. -/
theorem lookup_some_mem_keys :
    ∀ (m : List (Nat × AlarmLevel)) (k : Nat) (v : AlarmLevel),
      m.lookup k = some v → k ∈ m.map Prod.fst := by
  intro m
  induction m with
  | nil => intro k v h; exact absurd h (by simp [List.lookup])
  | cons hd tl ih =>
    intro k v h
    rw [List.lookup] at h
    cases hbeq : k == hd.1 with
    | true =>
      simp only [List.map_cons, List.mem_cons]
      exact .inl (beq_iff_eq.mp hbeq)
    | false =>
      rw [hbeq] at h
      simp only [List.map_cons, List.mem_cons]
      exact .inr (ih k v h)

/-- Lookup after a Python dict update: the new key finds the new value,
other keys are untouched. -/
theorem dict_insert_lookup :
    ∀ (m : List (Nat × AlarmLevel)) (k : Nat) (v : AlarmLevel) (a : Nat),
      (dict_insert m k v).lookup a = if a = k then some v else m.lookup a := by
  intro m
  induction m with
  | nil =>
    intro k v a
    by_cases h : a = k
    · simp [dict_insert, List.lookup, h]
    · have hbeq : (a == k) = false := by simp [h]
      simp [dict_insert, List.lookup, hbeq, h]
  | cons hd tl ih =>
    intro k v a
    unfold dict_insert
    split
    · rename_i heq
      by_cases h : a = k
      · subst heq
        simp [List.lookup, h]
      · have hbeq : (a == k) = false := by simp [h]
        subst heq
        simp [List.lookup, hbeq, h]
    · rename_i hne
      by_cases h : a = hd.1
      · have h2 : ¬a = k := fun hak => hne ((h.symm.trans hak))
        simp [List.lookup, h, h2, hne]
      · have hbeq : (a == hd.1) = false := by simp [h]
        simp [List.lookup, hbeq, ih k v a]

/-- Last-one-wins: after a successful run of the level loop, looking up a
severity key finds the level built from the LAST source record resolving to
that key, or falls back to the inherited dict. -/
theorem processLevels_lookup (n : String) (i : JVal) :
    ∀ (ls : List LevelRecord) (acc : List (Nat × AlarmLevel)) (fc fnc : Bool)
      (m : List (Nat × AlarmLevel)) (fc' fnc' : Bool) (k : Nat),
      Alarm.processLevels n i ls acc fc fnc = .ok (m, fc', fnc') →
      m.lookup k =
        match ls.reverse.find? (fun l => ituOf l == k) with
        | some l => some (mkLevel n i l)
        | none => acc.lookup k := by
  intro ls
  induction ls with
  | nil =>
    intro acc fc fnc m fc' fnc' k h
    simp only [Alarm.processLevels, Except.ok.injEq, Prod.mk.injEq] at h
    obtain ⟨rfl, _, _⟩ := h
    rfl
  | cons l ls ih =>
    intro acc fc fnc m fc' fnc' k h
    cases hlv : AlarmLevel.init n i l with
    | error e =>
      rw [processLevels_cons_err n i l ls acc fc fnc e hlv] at h
      exact absurd h (by simp)
    | ok lv =>
      rw [processLevels_cons_ok n i l ls acc fc fnc lv hlv] at h
      obtain ⟨_, rfl⟩ := level_init_ok_inv n i l lv hlv
      have hitu : (mkLevel n i l).itu_severity = ituOf l := rfl
      rw [hitu] at h
      have hrec : m.lookup k =
          match ls.reverse.find? (fun l => ituOf l == k) with
          | some l => some (mkLevel n i l)
          | none => (dict_insert acc (ituOf l) (mkLevel n i l)).lookup k := by
        by_cases hcl : ituOf l = alarm_severities_CLEARED
        · rw [if_pos hcl] at h
          exact ih _ _ _ _ _ _ k h
        · rw [if_neg hcl] at h
          exact ih _ _ _ _ _ _ k h
      rw [hrec, List.reverse_cons]
      have happ : (ls.reverse ++ [l]).find? (fun l2 => ituOf l2 == k) =
          match ls.reverse.find? (fun l2 => ituOf l2 == k) with
          | some l2 => some l2
          | none => [l].find? (fun l2 => ituOf l2 == k) := by
        rw [List.find?_append]
        cases ls.reverse.find? (fun l2 => ituOf l2 == k) <;> rfl
      rw [happ]
      cases hfound : ls.reverse.find? (fun l2 => ituOf l2 == k) with
      | some l2 => rfl
      | none =>
        by_cases hk : ituOf l = k
        · have hsing : [l].find? (fun l2 => ituOf l2 == k) = some l := by
            simp [List.find?, hk]
          rw [hsing]
          show (dict_insert acc (ituOf l) (mkLevel n i l)).lookup k =
            some (mkLevel n i l)
          rw [dict_insert_lookup, if_pos hk.symm]
        · have hbeq : (ituOf l == k) = false := by simp [hk]
          have hsing : [l].find? (fun l2 => ituOf l2 == k) = none := by
            simp [List.find?, hbeq]
          rw [hsing]
          show (dict_insert acc (ituOf l) (mkLevel n i l)).lookup k =
            acc.lookup k
          rw [dict_insert_lookup, if_neg (fun hak => hk hak.symm)]

/-- The severity-keyed dict of a validated alarm holds, at every key, the
level built from the last source record resolving to that key. -/
theorem alarm_init_lookup (r : AlarmRecord) (a : Alarm)
    (h : Alarm.init r = .ok a) (k : Nat) :
    a.levels.lookup k =
      (r.levels.reverse.find? (fun l => ituOf l == k)).map
        (mkLevel r.name r.index) := by
  unfold Alarm.init at h
  split at h
  case isFalse => exact absurd h (by simp)
  cases hpl : Alarm.processLevels r.name r.index r.levels [] false false with
  | error e => rw [hpl] at h; exact absurd h (by simp)
  | ok t =>
    rw [hpl] at h
    obtain ⟨lvls, fc, fnc⟩ := t
    cases fc with
    | false => exact absurd h (by simp)
    | true =>
      cases fnc with
      | false => exact absurd h (by simp)
      | true =>
        simp only [if_true] at h
        have ha : a = ⟨r.name, r.index, r.cause, lvls⟩ := by
          cases h; rfl
        subst ha
        have hlook := processLevels_lookup r.name r.index _ _ _ _ _ _ _ k hpl
        rw [show Alarm.levels ⟨r.name, r.index, r.cause, lvls⟩ = lvls from rfl, hlook]
        cases r.levels.reverse.find? (fun l => ituOf l == k) with
        | some l' => rfl
        | none => rfl

/-! ### Claim theorems -/

/-- C1: for every level of every successfully validated alarm, the level's
OID suffix is the parent record's index, a literal period, and the
model-state ordinal of the level's severity, where the ordinals are
cleared=1, indeterminate=2, warning=3, minor=4, major=5, critical=6. -/
theorem oid_suffix_is_index_dot_model_state (r : AlarmRecord) (a : Alarm)
    (h : Alarm.init r = .ok a) :
    (∀ e ∈ a.levels, ∃ ms,
        alarm_model_state.lookup (pyLower e.2.severity_string) = some ms ∧
        e.2.oid = pyStr r.index ++ "." ++ toString ms) ∧
    alarm_model_state.lookup "cleared" = some 1 ∧
    alarm_model_state.lookup "indeterminate" = some 2 ∧
    alarm_model_state.lookup "warning" = some 3 ∧
    alarm_model_state.lookup "minor" = some 4 ∧
    alarm_model_state.lookup "major" = some 5 ∧
    alarm_model_state.lookup "critical" = some 6 := by
  obtain ⟨_, _, _, hent, _, _⟩ := alarm_init_inv r a h
  refine ⟨?_, by decide, by decide, by decide, by decide, by decide, by decide⟩
  intro e he
  obtain ⟨l, _, hok, rfl⟩ := hent e he
  exact ⟨msOf l, model_state_total l (levelOk_sevValid l hok), rfl⟩

/-- Witness for C1 at a concrete record: index 1000 with a cleared and a
major level (whose OIDs evaluate to `1000.1` and `1000.5`). -/
theorem oid_suffix_is_index_dot_model_state_witness :
    Alarm.init sampleRec = .ok sampleAlarm ∧
    ((∀ e ∈ sampleAlarm.levels, ∃ ms,
        alarm_model_state.lookup (pyLower e.2.severity_string) = some ms ∧
        e.2.oid = pyStr sampleRec.index ++ "." ++ toString ms) ∧
     alarm_model_state.lookup "cleared" = some 1 ∧
     alarm_model_state.lookup "indeterminate" = some 2 ∧
     alarm_model_state.lookup "warning" = some 3 ∧
     alarm_model_state.lookup "minor" = some 4 ∧
     alarm_model_state.lookup "major" = some 5 ∧
     alarm_model_state.lookup "critical" = some 6) ∧
    (sampleAlarm.levels.map fun e => e.2.oid) = ["1000.1", "1000.5"] :=
  ⟨rfl, oid_suffix_is_index_dot_model_state sampleRec sampleAlarm rfl, by decide⟩

/-- C2 counterexample: a record containing two cleared levels (and one major
level, all fields valid) is accepted by validation — the duplicate cleared
levels collapse in the severity-keyed dict, so the claim "two cleared levels
always fail" is false as stated. -/
theorem two_cleared_accepted_counterexample :
    dupClearedRec.levels.countP (fun l => pyLower l.severity == "cleared") = 2 ∧
    isOkE (Alarm.init dupClearedRec) = true := by
  constructor
  · decide
  · decide

/-- C2 (amended): for every alarm record containing two (or more) cleared
levels with all fields valid, validation fails — with the missing-non-cleared
error, producing no Alarm — exactly when the record has no non-cleared level;
when a non-cleared level is also present the record is accepted, the
duplicate cleared levels collapsing to a single cleared dict entry that holds
the level built from the LAST cleared record in source order (last one
wins). -/
theorem two_cleared_no_noncleared_rejected (r : AlarmRecord)
    (hc : pyLower r.cause ∈ valid_causes)
    (hl : ∀ l ∈ r.levels, levelOk l = true)
    (h2 : 2 ≤ r.levels.countP (fun l => pyLower l.severity == "cleared")) :
    (Alarm.init r = .error (.missingNonClearedSeverity r.name) ↔
       ∀ l ∈ r.levels, pyLower l.severity = "cleared") ∧
    ((∃ l ∈ r.levels, pyLower l.severity ≠ "cleared") →
       ∃ a, Alarm.init r = .ok a ∧
         (a.levels.map Prod.fst).count alarm_severities_CLEARED = 1 ∧
         a.levels.lookup alarm_severities_CLEARED =
           (r.levels.reverse.find? (fun l => pyLower l.severity == "cleared")).map
             (mkLevel r.name r.index)) := by
  have hcl_ex : ∃ l ∈ r.levels, pyLower l.severity = "cleared" := by
    have hpos : 0 < r.levels.countP (fun l => pyLower l.severity == "cleared") := by
      omega
    obtain ⟨l, hl0, hp⟩ := List.countP_pos_iff.mp hpos
    exact ⟨l, hl0, beq_iff_eq.mp hp⟩
  have hne : r.levels ≠ [] := by
    obtain ⟨l, hl0, _⟩ := hcl_ex
    intro h0
    rw [h0] at hl0
    exact absurd hl0 (by simp)
  have hclB : r.levels.any (fun l => ituOf l == alarm_severities_CLEARED) = true := by
    rw [List.any_eq_true]
    obtain ⟨l, hl0, hp⟩ := hcl_ex
    refine ⟨l, hl0, ?_⟩
    rw [beq_iff_eq]
    exact (ituOf_cleared_iff l (levelOk_sevValid l (hl l hl0))).mpr hp
  have haccept : (∃ l ∈ r.levels, pyLower l.severity ≠ "cleared") →
      ∃ a, Alarm.init r = .ok a := by
    rintro ⟨l0, hl0, hne0⟩
    have hncB : r.levels.any (fun l => ituOf l != alarm_severities_CLEARED) = true := by
      rw [List.any_eq_true]
      refine ⟨l0, hl0, ?_⟩
      rw [bne_iff_ne]
      intro hcl0
      exact hne0 ((ituOf_cleared_iff l0 (levelOk_sevValid l0 (hl l0 hl0))).mp hcl0)
    obtain ⟨a, ha, _⟩ := alarm_init_ok r hc hl hclB hncB
    exact ⟨a, ha⟩
  constructor
  · constructor
    · intro herr l hl0
      by_contra hne0
      obtain ⟨a, ha⟩ := haccept ⟨l, hl0, hne0⟩
      rw [ha] at herr
      exact Except.noConfusion herr
    · intro hall
      exact alarm_init_missing_noncleared r hc hl hne hall
  · intro hex
    obtain ⟨a, ha⟩ := haccept hex
    have hlook := alarm_init_lookup r a ha alarm_severities_CLEARED
    have hpred : r.levels.reverse.find? (fun l => ituOf l == alarm_severities_CLEARED) =
        r.levels.reverse.find? (fun l => pyLower l.severity == "cleared") := by
      apply find?_congr
      intro l hl0
      rw [List.mem_reverse] at hl0
      have hsv := levelOk_sevValid l (hl l hl0)
      by_cases hc0 : pyLower l.severity = "cleared"
      · have h1 : ituOf l = alarm_severities_CLEARED := (ituOf_cleared_iff l hsv).mpr hc0
        simp [h1, hc0]
      · have h1 : ituOf l ≠ alarm_severities_CLEARED :=
          fun hcl => hc0 ((ituOf_cleared_iff l hsv).mp hcl)
        simp [h1, hc0]
    rw [hpred] at hlook
    obtain ⟨_, _, _, _, hnd, _⟩ := alarm_init_inv r a ha
    have hfs : (r.levels.reverse.find?
        (fun l => pyLower l.severity == "cleared")).isSome := by
      rw [List.find?_isSome]
      obtain ⟨l, hl0, hp⟩ := hcl_ex
      exact ⟨l, List.mem_reverse.mpr hl0, by simp [hp]⟩
    obtain ⟨lc, hlc⟩ := Option.isSome_iff_exists.mp hfs
    have hlook2 := hlook
    rw [hlc] at hlook2
    have hmem := lookup_some_mem_keys a.levels alarm_severities_CLEARED
      (mkLevel r.name r.index lc) hlook2
    exact ⟨a, ha, List.count_eq_one_of_mem hnd hmem, hlook⟩

/-- Witness for amended C2: a record of exactly two cleared levels fails with
the missing-non-cleared error; a record with two distinguishable cleared
levels plus a major level is accepted, its dict holding exactly one cleared
entry, built from the second (last) cleared record. -/
theorem two_cleared_no_noncleared_rejected_witness :
    Alarm.init twoClearedRec = .error (.missingNonClearedSeverity twoClearedRec.name) ∧
    (∃ a, Alarm.init dupDistinctRec = .ok a ∧
       (a.levels.map Prod.fst).count alarm_severities_CLEARED = 1 ∧
       a.levels.lookup alarm_severities_CLEARED =
         (dupDistinctRec.levels.reverse.find?
           (fun l => pyLower l.severity == "cleared")).map
             (mkLevel dupDistinctRec.name dupDistinctRec.index)) ∧
    dupDistinctRec.levels.reverse.find? (fun l => pyLower l.severity == "cleared")
      = some clearedL2 ∧
    clearedL2 ≠ clearedL :=
  ⟨(two_cleared_no_noncleared_rejected twoClearedRec (by decide) (by decide)
      (by decide)).1.mpr (by decide),
   (two_cleared_no_noncleared_rejected dupDistinctRec (by decide) (by decide)
      (by decide)).2 ⟨majorL, by decide, by decide⟩,
   by decide, by decide⟩

/-- C3: a record all of whose levels are cleared (at least one level; other
fields valid) fails with the missing-non-cleared-severity error, and a record
with no cleared level fails with the missing-cleared-severity error (a record
with no levels at all falls under the second clause). -/
theorem cleared_level_invariants :
    (∀ r : AlarmRecord, pyLower r.cause ∈ valid_causes →
       (∀ l ∈ r.levels, levelOk l = true) → r.levels ≠ [] →
       (∀ l ∈ r.levels, pyLower l.severity = "cleared") →
       Alarm.init r = .error (.missingNonClearedSeverity r.name)) ∧
    (∀ r : AlarmRecord, pyLower r.cause ∈ valid_causes →
       (∀ l ∈ r.levels, levelOk l = true) →
       (∀ l ∈ r.levels, pyLower l.severity ≠ "cleared") →
       Alarm.init r = .error (.missingClearedSeverity r.name)) :=
  ⟨fun r hc hl hne hall => alarm_init_missing_noncleared r hc hl hne hall,
   fun r hc hl hnone => alarm_init_missing_cleared r hc hl hnone⟩

/-- Witness for C3: a record with exactly one cleared level (and nothing
else) fails with missing-non-cleared; a record with only a major level fails
with missing-cleared. -/
theorem cleared_level_invariants_witness :
    oneClearedRec.levels ≠ [] ∧
    (∀ l ∈ oneClearedRec.levels, pyLower l.severity = "cleared") ∧
    Alarm.init oneClearedRec = .error (.missingNonClearedSeverity oneClearedRec.name) ∧
    (∀ l ∈ noClearedRec.levels, pyLower l.severity ≠ "cleared") ∧
    Alarm.init noClearedRec = .error (.missingClearedSeverity noClearedRec.name) :=
  ⟨by decide, by decide,
   cleared_level_invariants.1 oneClearedRec (by decide) (by decide) (by decide) (by decide),
   by decide,
   cleared_level_invariants.2 noClearedRec (by decide) (by decide) (by decide)⟩

/-- C4: when `extended_details` is present (and validation succeeds), the
produced level's effective details equal `extended_details`, not `details`;
likewise for `extended_description`/`description`; and the CSV data row
reports only the effective values (cells 6 and 5). -/
theorem extended_fields_override (n : String) (i : JVal) (l : LevelRecord)
    (lv : AlarmLevel) (h : AlarmLevel.init n i l = .ok lv) :
    (∀ e, l.extended_details = some e → lv.details = e) ∧
    (∀ e, l.extended_description = some e → lv.description = e) ∧
    (∀ a, (csv_values a lv)[6]? = some lv.details ∧
       (csv_values a lv)[5]? = some lv.description) := by
  obtain ⟨hok, rfl⟩ := level_init_ok_inv n i l lv h
  refine ⟨?_, ?_, ?_⟩
  · intro e he
    simp [mkLevel, he]
  · intro e he
    simp [mkLevel, he]
  · intro a
    exact ⟨rfl, rfl⟩

/-- Witness for C4 at a concrete level record carrying both overrides. -/
theorem extended_fields_override_witness :
    AlarmLevel.init "w" (.int 1) overrideL = .ok (mkLevel "w" (.int 1) overrideL) ∧
    overrideL.details = "short" ∧
    (mkLevel "w" (.int 1) overrideL).details = "the long form" ∧
    (mkLevel "w" (.int 1) overrideL).description = "the long description" :=
  ⟨rfl, rfl,
   (extended_fields_override "w" (.int 1) overrideL (mkLevel "w" (.int 1) overrideL)
     rfl).1 "the long form" rfl,
   (extended_fields_override "w" (.int 1) overrideL (mkLevel "w" (.int 1) overrideL)
     rfl).2.1 "the long description" rfl⟩

/-- `s255` has 255 characters. -/
theorem s255_length : s255.length = 255 := by
  show (List.replicate 255 (Char.ofNat 120)).length = 255
  rw [List.length_replicate]

/-- `s256` has 256 characters. -/
theorem s256_length : s256.length = 256 := by
  show (List.replicate 256 (Char.ofNat 120)).length = 256
  rw [List.length_replicate]

/-- `s4096` has 4096 characters. -/
theorem s4096_length : s4096.length = 4096 := by
  show (List.replicate 4096 (Char.ofNat 120)).length = 4096
  rw [List.length_replicate]

/-- An error from the optional-override check always names the override
field. -/
theorem checkOverride_error_field (n field base : String) (o : Option String)
    (e : AlarmError) (h : checkOverride n field base o = .error e) :
    e = .fieldTooLong field n := by
  cases o with
  | none => exact absurd h (by simp [checkOverride])
  | some s =>
    have h2 : (if s.length < 4096 then (Except.ok s : Except AlarmError String)
               else .error (.fieldTooLong field n)) = .error e := h
    by_cases hs : s.length < 4096
    · rw [if_pos hs] at h2
      exact absurd h2 (by simp)
    · rw [if_neg hs] at h2
      exact (Except.error.inj h2).symm

/-- C5: the level length ceilings — `details`/`description` must be under
256 characters and `cause`/`effect`/`action` and the two override fields
under 4096, each violation failing with a field-too-long error naming the
field, while a 255-character `details` passes the details check. -/
theorem field_length_limits (n : String) (i : JVal) (l : LevelRecord) :
    (l.details.length ≥ 256 → l.extended_details = none →
       AlarmLevel.init n i l = .error (.fieldTooLong "details" n)) ∧
    (l.details.length = 255 →
       AlarmLevel.init n i l ≠ .error (.fieldTooLong "details" n)) ∧
    (l.details.length < 256 → l.description.length ≥ 256 →
       AlarmLevel.init n i l = .error (.fieldTooLong "description" n)) ∧
    (l.details.length < 256 → l.description.length < 256 →
       l.cause.length ≥ 4096 →
       AlarmLevel.init n i l = .error (.fieldTooLong "cause" n)) ∧
    (l.details.length < 256 → l.description.length < 256 →
       l.cause.length < 4096 → l.effect.length ≥ 4096 →
       AlarmLevel.init n i l = .error (.fieldTooLong "effect" n)) ∧
    (l.details.length < 256 → l.description.length < 256 →
       l.cause.length < 4096 → l.effect.length < 4096 →
       l.action.length ≥ 4096 →
       AlarmLevel.init n i l = .error (.fieldTooLong "action" n)) ∧
    (l.details.length < 256 → l.description.length < 256 →
       l.cause.length < 4096 → l.effect.length < 4096 → l.action.length < 4096 →
       ∀ e, l.extended_details = some e → e.length ≥ 4096 →
       AlarmLevel.init n i l = .error (.fieldTooLong "extended_details" n)) ∧
    (l.details.length < 256 → l.description.length < 256 →
       l.cause.length < 4096 → l.effect.length < 4096 → l.action.length < 4096 →
       (∀ e, l.extended_details = some e → e.length < 4096) →
       ∀ e, l.extended_description = some e → e.length ≥ 4096 →
       AlarmLevel.init n i l = .error (.fieldTooLong "extended_description" n)) := by
  refine ⟨?_, ?_, ?_, ?_, ?_, ?_, ?_, ?_⟩
  · intro h _
    unfold AlarmLevel.init
    rw [if_pos h]
  · intro h255
    unfold AlarmLevel.init
    rw [if_neg (by omega)]
    repeat' split
    all_goals
      try (rename_i e heq
           rw [checkOverride_error_field _ _ _ _ _ heq])
    all_goals simp
  · intro h1 h2
    unfold AlarmLevel.init
    rw [if_neg (by omega), if_pos h2]
  · intro h1 h2 h3
    unfold AlarmLevel.init
    rw [if_neg (by omega), if_neg (by omega), if_pos h3]
  · intro h1 h2 h3 h4
    unfold AlarmLevel.init
    rw [if_neg (by omega), if_neg (by omega), if_neg (by omega), if_pos h4]
  · intro h1 h2 h3 h4 h5
    unfold AlarmLevel.init
    rw [if_neg (by omega), if_neg (by omega), if_neg (by omega),
        if_neg (by omega), if_pos h5]
  · intro h1 h2 h3 h4 h5 e he hlen
    unfold AlarmLevel.init
    rw [if_neg (by omega), if_neg (by omega), if_neg (by omega),
        if_neg (by omega), if_neg (by omega)]
    simp only [checkOverride, he]
    rw [if_neg (by omega)]
  · intro h1 h2 h3 h4 h5 hed e he hlen
    unfold AlarmLevel.init
    rw [if_neg (by omega), if_neg (by omega), if_neg (by omega),
        if_neg (by omega), if_neg (by omega)]
    cases hde : l.extended_details with
    | none =>
      simp only [checkOverride, hde, he]
      rw [if_neg (by omega)]
    | some ed =>
      have hedlen := hed ed hde
      simp only [checkOverride, hde, he]
      rw [if_pos hedlen, if_neg (by omega)]

/-- Witness for C5: each length ceiling exercised at a concrete level record
(256-character details rejected, 255 accepted past that check, 4096-character
cause/effect/action/extended fields rejected). -/
theorem field_length_limits_witness :
    AlarmLevel.init "w" (.int 1) detailsLongL = .error (.fieldTooLong "details" "w") ∧
    AlarmLevel.init "w" (.int 1) details255L ≠ .error (.fieldTooLong "details" "w") ∧
    AlarmLevel.init "w" (.int 1) descriptionLongL = .error (.fieldTooLong "description" "w") ∧
    AlarmLevel.init "w" (.int 1) causeLongL = .error (.fieldTooLong "cause" "w") ∧
    AlarmLevel.init "w" (.int 1) effectLongL = .error (.fieldTooLong "effect" "w") ∧
    AlarmLevel.init "w" (.int 1) actionLongL = .error (.fieldTooLong "action" "w") ∧
    AlarmLevel.init "w" (.int 1) extDetailsLongL = .error (.fieldTooLong "extended_details" "w") ∧
    AlarmLevel.init "w" (.int 1) extDescriptionLongL
      = .error (.fieldTooLong "extended_description" "w") :=
  ⟨(field_length_limits "w" (.int 1) detailsLongL).1
     (by simp only [detailsLongL, clearedL, s256_length]; omega) rfl,
   (field_length_limits "w" (.int 1) details255L).2.1
     (by simp only [details255L, clearedL, s255_length]),
   (field_length_limits "w" (.int 1) descriptionLongL).2.2.1 (by decide)
     (by simp only [descriptionLongL, clearedL, s256_length]; omega),
   (field_length_limits "w" (.int 1) causeLongL).2.2.2.1 (by decide) (by decide)
     (by simp only [causeLongL, clearedL, s4096_length]; omega),
   (field_length_limits "w" (.int 1) effectLongL).2.2.2.2.1 (by decide) (by decide)
     (by decide) (by simp only [effectLongL, clearedL, s4096_length]; omega),
   (field_length_limits "w" (.int 1) actionLongL).2.2.2.2.2.1 (by decide) (by decide)
     (by decide) (by decide) (by simp only [actionLongL, clearedL, s4096_length]; omega),
   (field_length_limits "w" (.int 1) extDetailsLongL).2.2.2.2.2.2.1 (by decide) (by decide)
     (by decide) (by decide) (by decide) s4096 rfl (by simp only [s4096_length]; omega),
   (field_length_limits "w" (.int 1) extDescriptionLongL).2.2.2.2.2.2.2 (by decide) (by decide)
     (by decide) (by decide) (by decide) (by simp [extDescriptionLongL, clearedL]) s4096 rfl
     (by simp only [s4096_length]; omega)⟩

/-- C6: cause validation is case-insensitive over the three-member
enumeration — `Alarm.init` reports an invalid cause exactly when the
case-folded cause is not one of the three values; `Software_Error` and
`software_error` fold into the enumeration, `hardware_error` does not. -/
theorem cause_validation_case_insensitive (r : AlarmRecord) :
    (Alarm.init r = .error (.invalidCause r.cause r.name) ↔
       pyLower r.cause ∉ valid_causes) ∧
    pyLower "Software_Error" ∈ valid_causes ∧
    pyLower "software_error" ∈ valid_causes ∧
    pyLower "hardware_error" ∉ valid_causes :=
  ⟨alarm_init_invalidCause_iff r, by decide, by decide, by decide⟩

/-- Witness for C6: the record with cause `hardware_error` fails with the
invalid-cause error; the record with cause `Software_Error` validates. -/
theorem cause_validation_case_insensitive_witness :
    Alarm.init badCauseRec = .error (.invalidCause "hardware_error" "bad_cause") ∧
    isOkE (Alarm.init sampleRec) = true :=
  ⟨(cause_validation_case_insensitive badCauseRec).1.mpr (by decide), by decide⟩

/-- C7: the loader fails before any record when the `alarms` key is absent;
when every record validates it returns the entities in source order
(pointwise correspondence); and on an invalid record it propagates that
first record's failure, returning no partial result. -/
theorem loader_order_and_first_failure (doc : AlarmsDoc) :
    (doc.alarms = none → parse_alarms_file doc = .error .missingAlarmsKey) ∧
    (∀ l, doc.alarms = some l → (∀ r ∈ l, isOkE (Alarm.init r) = true) →
       ∃ as, parse_alarms_file doc = .ok as ∧
         List.Forall₂ (fun r a => Alarm.init r = .ok a) l as) ∧
    (∀ (l1 : List AlarmRecord) (r : AlarmRecord) (l2 : List AlarmRecord)
       (e : AlarmError), doc.alarms = some (l1 ++ r :: l2) →
       (∀ x ∈ l1, isOkE (Alarm.init x) = true) → Alarm.init r = .error e →
       parse_alarms_file doc = .error e) := by
  refine ⟨?_, ?_, ?_⟩
  · intro h
    unfold parse_alarms_file
    rw [h]
  · intro l hl hok
    obtain ⟨as, hmap, hfa⟩ := except_mapM_ok Alarm.init l hok
    refine ⟨as, ?_, hfa⟩
    unfold parse_alarms_file
    rw [hl]
    exact hmap
  · intro l1 r l2 e hl hok hr
    unfold parse_alarms_file
    rw [hl]
    exact except_mapM_first_fail Alarm.init l1 r l2 e hok hr

/-- Witness for C7: a keyless document fails with the missing-key error; a
two-record document loads both in order; a document whose second record has a
bad cause propagates exactly that failure. -/
theorem loader_order_and_first_failure_witness :
    parse_alarms_file docNone = .error .missingAlarmsKey ∧
    (∃ as, parse_alarms_file docGood = .ok as ∧
       List.Forall₂ (fun r a => Alarm.init r = .ok a) [sampleRec, dupClearedRec] as) ∧
    parse_alarms_file docBad = .error (.invalidCause "hardware_error" "bad_cause") :=
  ⟨(loader_order_and_first_failure docNone).1 rfl,
   (loader_order_and_first_failure docGood).2.1 [sampleRec, dupClearedRec] rfl (by decide),
   (loader_order_and_first_failure docBad).2.2 [sampleRec] badCauseRec [sampleRec]
     (.invalidCause "hardware_error" "bad_cause") rfl (by decide) rfl⟩

/-- C8: over documents that all parse, the tabular renderer emits exactly the
fixed ten-column header row followed by one data row per (alarm, level) pair
across all documents in order, each row carrying the level OID, ITU code,
alarm name, alarm cause, severity string in original casing, description,
details, level cause, effect and action. -/
theorem csv_header_and_rows (docs : List AlarmsDoc) (alarmLists : List (List Alarm))
    (h : List.Forall₂ (fun d as => parse_alarms_file d = .ok as) docs alarmLists) :
    alarms_to_csv docs = .ok (csv_columns ::
      (alarmLists.flatten.flatMap fun a => a.levels.map fun kv => csv_values a kv.2)) ∧
    csv_columns = ["OID", "ITU_severity", "name", "cause", "severity",
      "description", "details", "cause", "effect", "action"] ∧
    (∀ a lv, csv_values a lv = [lv.oid, toString lv.itu_severity, a.name, a.cause,
      lv.severity_string, lv.description, lv.details, lv.cause, lv.effect,
      lv.action]) := by
  refine ⟨?_, rfl, fun a lv => rfl⟩
  unfold alarms_to_csv
  rw [except_mapM_of_forall2 parse_alarms_file docs alarmLists h]

/-- Witness for C8 on the two-alarm document: header plus the four data rows
of (sample alarm × 2 levels) and (duplicate-cleared alarm × 2 levels). -/
theorem csv_header_and_rows_witness :
    alarms_to_csv [docGood] = .ok (csv_columns ::
      ([[sampleAlarm, dupClearedAlarm]].flatten.flatMap fun a =>
        a.levels.map fun kv => csv_values a kv.2)) ∧
    (csv_columns ::
      ([[sampleAlarm, dupClearedAlarm]].flatten.flatMap fun a =>
        a.levels.map fun kv => csv_values a kv.2)).length = 5 :=
  ⟨(csv_header_and_rows [docGood] [[sampleAlarm, dupClearedAlarm]]
      (.cons rfl .nil)).1,
   by decide⟩

/-- C9: for every validated alarm the rendered constant line is the alarm
name upper-cased, ` = `, and the tuple of the record's index followed by the
ITU severity codes of its levels (the dict keys: one per distinct severity,
each equal to its level's ITU code), newline-terminated. -/
theorem constants_line_format (r : AlarmRecord) (a : Alarm)
    (h : Alarm.init r = .ok a) :
    render_alarm a = pyUpper r.name ++ " = " ++
      ("(" ++ String.intercalate ", "
        (pyRepr r.index :: a.levels.map fun kv => toString kv.1) ++ ")") ++ "\n" ∧
    (∀ kv ∈ a.levels, kv.1 = kv.2.itu_severity) ∧
    (a.levels.map Prod.fst).Nodup := by
  obtain ⟨hname, hidx, _, hent, hnd, hne⟩ := alarm_init_inv r a h
  refine ⟨?_, ?_, hnd⟩
  · unfold render_alarm
    rw [hname, hidx]
    cases hlv : a.levels with
    | nil => exact absurd hlv hne
    | cons x xs =>
      simp only [List.map_cons]
      rfl
  · intro kv hkv
    obtain ⟨l, _, _, rfl⟩ := hent kv hkv
    rfl

/-- Witness for C9: the sample alarm renders to the concrete line
`COOL_ALARM = (1000, 1, 4)` with a trailing newline. -/
theorem constants_line_format_witness :
    (render_alarm sampleAlarm = pyUpper sampleRec.name ++ " = " ++
      ("(" ++ String.intercalate ", "
        (pyRepr sampleRec.index :: sampleAlarm.levels.map fun kv => toString kv.1) ++
        ")") ++ "\n" ∧
     (∀ kv ∈ sampleAlarm.levels, kv.1 = kv.2.itu_severity) ∧
     (sampleAlarm.levels.map Prod.fst).Nodup) ∧
    render_alarm sampleAlarm = "COOL_ALARM = (1000, 1, 4)\n" :=
  ⟨constants_line_format sampleRec sampleAlarm rfl, rfl⟩

/-- C10: validation never inspects the index — with every other field valid,
any index value (zero, negative, or a string) is accepted, and its Python
string form is embedded verbatim as the prefix of every level's OID suffix. -/
theorem index_unchecked (r : AlarmRecord) (i : JVal)
    (hc : pyLower r.cause ∈ valid_causes)
    (hl : ∀ l ∈ r.levels, levelOk l = true)
    (hcl : r.levels.any (fun l => ituOf l == alarm_severities_CLEARED) = true)
    (hnc : r.levels.any (fun l => ituOf l != alarm_severities_CLEARED) = true) :
    ∃ a, Alarm.init { r with index := i } = .ok a ∧
      ∀ e ∈ a.levels, ∃ tail, e.2.oid = pyStr i ++ "." ++ tail := by
  obtain ⟨a, ha, _, _, _, hent⟩ := alarm_init_ok { r with index := i } hc hl hcl hnc
  refine ⟨a, ha, ?_⟩
  intro e he
  obtain ⟨l, _, _, rfl⟩ := hent e he
  exact ⟨toString (msOf l), rfl⟩

/-- Witness for C10: the sample record is accepted with a string index and
with a negative integer index, the OIDs prefixed by the index's string form. -/
theorem index_unchecked_witness :
    (∃ a, Alarm.init { sampleRec with index := .str "weird index" } = .ok a ∧
       ∀ e ∈ a.levels, ∃ tail, e.2.oid = pyStr (.str "weird index") ++ "." ++ tail) ∧
    (∃ a, Alarm.init { sampleRec with index := .int (-3) } = .ok a ∧
       ∀ e ∈ a.levels, ∃ tail, e.2.oid = pyStr (.int (-3)) ++ "." ++ tail) :=
  ⟨index_unchecked sampleRec (.str "weird index") (by decide) (by decide)
     (by decide) (by decide),
   index_unchecked sampleRec (.int (-3)) (by decide) (by decide)
     (by decide) (by decide)⟩
